import Mathlib

/-!
Verification of the preparation core of `gemmi prep`
(files `prog/prep.cpp` and `src/prep.cpp`).

The development shallowly embeds the two algorithmic subsystems of the
program: monomer resolution with fallback synthesis, and automatic
covalent link detection (`assign_connections`).  Pure C++ functions are
translated to Lean functions; the `std::map` of monomer definitions is
modelled as an association list with `emplace` (insert-if-absent)
semantics; floating point distances are modelled with exact rational
arithmetic, and the recorded link distance is kept as its square
(`std::sqrt` is strictly monotone on nonnegative reals, so the squared
distance is an equivalent exact encoding).  Parts of the gemmi library
that the program calls but whose sources are not part of this
repository (`read_monomer_lib`, `ContactSearch::for_each_contact`,
`find_connection_by_cra`, `make_chemcomp_with_restraints`,
`get_all_residue_names`) are modelled from the specification and are
marked as such in their doc comments.
-/

namespace GemmiPrep

/-! ## Data model -/

/-- An atom of the structure model: a name and the covalent radius of
its element (`element.covalent_r()` in the source). -/
structure Atom where
  name : String
  covR : ℚ
deriving DecidableEq

/-- A residue: chemical-component name, sequence id and its ordered atoms. -/
structure Residue where
  name : String
  seqId : Int
  atoms : List Atom
deriving DecidableEq

/-- A chain: identifier and ordered residues. -/
structure Chain where
  name : String
  residues : List Residue
deriving DecidableEq

/-- A model: ordered chains. -/
structure Model where
  chains : List Chain
deriving DecidableEq

/-! ## find_most_complete_residue (prog/prep.cpp lines 63-71, src/prep.cpp lines 87-95) -/

/-- One step of the residue scan of `find_most_complete_residue`:
the running best `r` is replaced by `residue` exactly when
`residue.name == name && (!r || residue.atoms.size() > r->atoms.size())`. -/
def fmcrStep (name : String) (r : Option Residue) (residue : Residue) : Option Residue :=
  match r with
  | none => if residue.name = name then some residue else none
  | some rr =>
    if residue.name = name ∧ rr.atoms.length < residue.atoms.length then some residue
    else some rr

/-- `find_most_complete_residue` from the source: scan every chain and
every residue, keeping the first residue of the given name whose atom
count strictly exceeds the running best. -/
def findMostCompleteResidue (name : String) (model : Model) : Option Residue :=
  model.chains.foldl (fun r chain => chain.residues.foldl (fmcrStep name) r) none

/-- All residues of a model in chain/residue traversal order. -/
def Model.residueList (m : Model) : List Residue :=
  (m.chains.map Chain.residues).flatten

/-- The residues of a model carrying a given name, in traversal order. -/
def namedResidues (name : String) (m : Model) : List Residue :=
  (m.residueList).filter (fun r => r.name = name)

/-! ### Characterization of the template selection -/

theorem fmcr_foldl_eq (name : String) (m : Model) :
    findMostCompleteResidue name m = (m.residueList).foldl (fmcrStep name) none := by
  unfold findMostCompleteResidue Model.residueList
  rw [List.foldl_flatten, List.foldl_map]

theorem fmcr_pick_some (name : String) :
    ∀ (l : List Residue) (a r : Residue),
      l.foldl (fmcrStep name) (some a) = some r →
      (r = a ∧ ∀ x ∈ l.filter (fun x => x.name = name), x.atoms.length ≤ a.atoms.length) ∨
      (a.atoms.length < r.atoms.length ∧
        ∃ l1 l2, l.filter (fun x => x.name = name) = l1 ++ r :: l2 ∧
          (∀ x ∈ l1, x.atoms.length < r.atoms.length) ∧
          (∀ x ∈ l2, x.atoms.length ≤ r.atoms.length)) := by
  intro l
  induction l with
  | nil =>
    intro a r h
    simp only [List.foldl_nil, Option.some.injEq] at h
    exact Or.inl ⟨h.symm, by simp⟩
  | cons x l ih =>
    intro a r h
    rw [List.foldl_cons] at h
    by_cases hname : x.name = name
    · by_cases hlt : a.atoms.length < x.atoms.length
      · rw [show fmcrStep name (some a) x = some x by simp [fmcrStep, hname, hlt]] at h
        rcases ih x r h with ⟨rfl, hall⟩ | ⟨hxr, l1, l2, hdec, hb1, hb2⟩
        · refine Or.inr ⟨hlt, [], l.filter (fun x => x.name = name), ?_, by simp, hall⟩
          simp [hname]
        · refine Or.inr ⟨lt_trans hlt hxr, x :: l1, l2, ?_, ?_, hb2⟩
          · simp [hname, hdec]
          · intro y hy
            rcases List.mem_cons.mp hy with rfl | hy
            · exact hxr
            · exact hb1 y hy
      · rw [show fmcrStep name (some a) x = some a by simp [fmcrStep, hname, hlt]] at h
        rcases ih a r h with ⟨rfl, hall⟩ | ⟨har, l1, l2, hdec, hb1, hb2⟩
        · refine Or.inl ⟨rfl, ?_⟩
          intro y hy
          rw [List.filter_cons_of_pos (by simp [hname])] at hy
          rcases List.mem_cons.mp hy with rfl | hy
          · exact Nat.le_of_not_lt hlt
          · exact hall y hy
        · refine Or.inr ⟨har, x :: l1, l2, ?_, ?_, hb2⟩
          · simp [hname, hdec]
          · intro y hy
            rcases List.mem_cons.mp hy with rfl | hy
            · exact lt_of_le_of_lt (Nat.le_of_not_lt hlt) har
            · exact hb1 y hy
    · rw [show fmcrStep name (some a) x = some a by simp [fmcrStep, hname]] at h
      rw [List.filter_cons_of_neg (by simp [hname])]
      exact ih a r h

theorem fmcr_pick_none (name : String) :
    ∀ (l : List Residue) (r : Residue),
      l.foldl (fmcrStep name) none = some r →
      ∃ l1 l2, l.filter (fun x => x.name = name) = l1 ++ r :: l2 ∧
        (∀ x ∈ l1, x.atoms.length < r.atoms.length) ∧
        (∀ x ∈ l2, x.atoms.length ≤ r.atoms.length) := by
  intro l
  induction l with
  | nil => intro r h; simp at h
  | cons x l ih =>
    intro r h
    rw [List.foldl_cons] at h
    by_cases hname : x.name = name
    · rw [show fmcrStep name none x = some x by simp [fmcrStep, hname]] at h
      rcases fmcr_pick_some name l x r h with ⟨rfl, hall⟩ | ⟨hxr, l1, l2, hdec, hb1, hb2⟩
      · exact ⟨[], l.filter (fun x => x.name = name), by simp [hname], by simp, hall⟩
      · refine ⟨x :: l1, l2, by simp [hname, hdec], ?_, hb2⟩
        intro y hy
        rcases List.mem_cons.mp hy with rfl | hy
        · exact hxr
        · exact hb1 y hy
    · rw [show fmcrStep name none x = none by simp [fmcrStep, hname]] at h
      rw [List.filter_cons_of_neg (by simp [hname])]
      exact ih r h

/-- C2: for an unmet residue name, `find_most_complete_residue` selects the
residue of that name with the largest atom count, and on ties the one that
occurs first in chain/residue traversal order: the selected residue `r`
splits the traversal-ordered list of same-named residues into earlier ones,
all with strictly fewer atoms, and later ones, all with at most as many. -/
theorem find_most_complete_residue_selects_max_first
    (name : String) (m : Model) (r : Residue)
    (h : findMostCompleteResidue name m = some r) :
    ∃ l1 l2, namedResidues name m = l1 ++ r :: l2 ∧
      (∀ x ∈ l1, x.atoms.length < r.atoms.length) ∧
      (∀ x ∈ l2, x.atoms.length ≤ r.atoms.length) := by
  rw [fmcr_foldl_eq] at h
  exact fmcr_pick_none name _ r h

/-- Three residues named LIG with 5, 8 and 3 observed atoms, in one chain. -/
def ligResidue (n : Nat) (seqId : Int) : Residue :=
  ⟨"LIG", seqId, List.replicate n ⟨"C", (0 : ℚ)⟩⟩

/-- The example model of the template-selection property. -/
def exModelC2 : Model :=
  ⟨[⟨"A", [ligResidue 5 1, ligResidue 8 2, ligResidue 3 3]⟩]⟩

theorem find_most_complete_residue_selects_max_first_witness :
    ∃ l1 l2, namedResidues "LIG" exModelC2 = l1 ++ ligResidue 8 2 :: l2 ∧
      (∀ x ∈ l1, x.atoms.length < (ligResidue 8 2).atoms.length) ∧
      (∀ x ∈ l2, x.atoms.length ≤ (ligResidue 8 2).atoms.length) :=
  find_most_complete_residue_selects_max_first "LIG" exModelC2 (ligResidue 8 2) (by decide)

/-! ## Link detection (assign_connections, src/prep.cpp lines 61-85) -/

/-- A location of an atom inside a model: chain index, residue index
inside the chain, atom index inside the residue.  This mirrors the
chain/residue/atom pointers of the C++ `CRA`. -/
structure Loc where
  chain : Nat
  res : Nat
  atom : Nat
deriving DecidableEq

/-- The dereferenced form of a `CRA`: the chain, residue and atom records. -/
structure CRA where
  chain : Chain
  residue : Residue
  atom : Atom
deriving DecidableEq

/-- Dereference a location in a model, as the C++ pointers do. -/
def Model.deref (m : Model) (l : Loc) : Option CRA :=
  (m.chains.get? l.chain).bind fun chain =>
    (chain.residues.get? l.res).bind fun residue =>
      (residue.atoms.get? l.atom).map fun atom => ⟨chain, residue, atom⟩

/-- A contact reported by the neighbor search: the two atom locations,
the symmetry-image index of the second atom, and the squared distance
computed by the search. -/
structure Contact where
  loc1 : Loc
  loc2 : Loc
  imageIdx : Int
  distSq : ℚ
deriving DecidableEq

/-- An atom address as stored in a `Connection` partner. -/
structure AtomAddress where
  chainName : String
  resSeqId : Int
  resName : String
  atomName : String
deriving DecidableEq

/-- `make_address`: the address of a dereferenced chain/residue/atom triple. -/
def craAddress (cra : CRA) : AtomAddress :=
  ⟨cra.chain.name, cra.residue.seqId, cra.residue.name, cra.atom.name⟩

/-- Connection types of gemmi; `assign_connections` only creates `Covale`. -/
inductive ConnectionType where
  | Covale
  | Disulf
  | Hydrog
  | MetalC
  | Unknown
deriving DecidableEq

/-- The asymmetric-unit flag of a connection. -/
inductive Asu where
  | Same
  | Different
  | Any
deriving DecidableEq

/-- A connection record.  `reportedDistanceSq` holds the square of the
recorded distance: the C++ stores `std::sqrt(dist_sq)`, and since the
square root is strictly monotone on nonnegative reals the squared
distance is an equivalent exact encoding. -/
structure Connection where
  name : String
  type : ConnectionType
  asu : Asu
  partner1 : AtomAddress
  partner2 : AtomAddress
  reportedDistanceSq : ℚ
deriving DecidableEq

/-- The structure state seen by `assign_connections`: its connection list. -/
structure Structure where
  connections : List Connection
deriving DecidableEq

/-- Lower-casing of a string, character by character (the structural
equivalent of `String.toLower`). -/
def lowerString (s : String) : String := String.mk (s.data.map Char.toLower)

/-- Case-insensitive string comparison used by connection-partner matching. -/
def strIEq (a b : String) : Bool := lowerString a = lowerString b

/-- Modelled from the spec: matching of a stored partner address against a
candidate atom address is a case-insensitive address match. -/
def addrMatches (p a : AtomAddress) : Bool :=
  strIEq p.chainName a.chainName && p.resSeqId = a.resSeqId &&
    strIEq p.resName a.resName && strIEq p.atomName a.atomName

/-- Modelled from the spec: `Structure::find_connection_by_cra` returns a
connection whose two partners match the two candidate atoms, in either
order.  Here only its existence is needed, so it returns a `Bool`. -/
def Structure.findConnectionByCra (st : Structure) (a1 a2 : AtomAddress) : Bool :=
  st.connections.any fun conn =>
    (addrMatches conn.partner1 a1 && addrMatches conn.partner2 a2) ||
    (addrMatches conn.partner1 a2 && addrMatches conn.partner2 a1)

/-- The distance-squared acceptance test of the callback in
`assign_connections`: the pair is rejected (the callback returns early)
exactly when `dist_sq > sq((r1 + r2) + 0.5)`. -/
def acceptsByRadius (r1 r2 distSq : ℚ) : Bool :=
  if distSq > ((r1 + r2) + 1/2) * ((r1 + r2) + 1/2) then false else true

/-- The connection built by the callback for an accepted pair, with the
running counter already incremented to `j`. -/
def connFor (j : Nat) (cra1 cra2 : CRA) (imageIdx : Int) (distSq : ℚ) : Connection :=
  { name := "added" ++ Nat.repr j
    type := ConnectionType.Covale
    asu := if imageIdx = 0 then Asu.Same else Asu.Different
    partner1 := craAddress cra1
    partner2 := craAddress cra2
    reportedDistanceSq := distSq }

/-- The body of the callback passed to `for_each_contact`: reject the pair
by the covalent-radius threshold, skip it if a connection between the two
atoms already exists, and otherwise append a new connection and advance the
counter.  Locations that do not dereference cannot arise from the C++
enumeration (which passes pointers) and are skipped. -/
def processContact (m : Model) (st : Structure) (counter : Nat) (c : Contact) :
    Structure × Nat :=
  match m.deref c.loc1, m.deref c.loc2 with
  | some cra1, some cra2 =>
    if acceptsByRadius cra1.atom.covR cra2.atom.covR c.distSq = false then (st, counter)
    else if st.findConnectionByCra (craAddress cra1) (craAddress cra2) = true then (st, counter)
    else (⟨st.connections ++ [connFor (counter + 1) cra1 cra2 c.imageIdx c.distSq]⟩,
          counter + 1)
  | _, _ => (st, counter)

/-- Two locations in the same or in sequentially adjacent residues of the
same chain. -/
def sameOrAdjacentLoc (l1 l2 : Loc) : Bool :=
  l1.chain = l2.chain && (l1.res = l2.res || l1.res + 1 = l2.res || l2.res + 1 = l1.res)

/-- Modelled from the spec: the contact enumeration
(`ContactSearch(3.5f)` with `ignore = Ignore::AdjacentResidues` over the
neighbor search) delivers to the callback only the pairs within the
3.5 search radius whose residues are neither the same nor sequentially
adjacent in the same chain. -/
def deliveredContacts (raw : List Contact) : List Contact :=
  raw.filter fun c =>
    decide (c.distSq ≤ (7/2 : ℚ) * (7/2)) && !(sameOrAdjacentLoc c.loc1 c.loc2)

/-- One fold step of `assign_connections`: the callback applied to the
running structure/counter pair. -/
def assignStep (m : Model) (p : Structure × Nat) (c : Contact) : Structure × Nat :=
  processContact m p.1 p.2 c

theorem assignStep_def (m : Model) (st : Structure) (k : Nat) (c : Contact) :
    assignStep m (st, k) c = processContact m st k c := rfl

/-- `assign_connections`: run the callback over every delivered contact,
starting from the structure's current connections and a zero counter. -/
def assignConnections (m : Model) (st : Structure) (raw : List Contact) : Structure :=
  ((deliveredContacts raw).foldl (assignStep m) (st, 0)).1

/-- The connections created by one `assign_connections` run: everything
appended after the pre-existing connections. -/
def newConnections (m : Model) (st : Structure) (raw : List Contact) : List Connection :=
  (assignConnections m st raw).connections.drop st.connections.length

/-! ### The distance threshold (C3) -/

/-- C3: link detection accepts a candidate atom pair exactly when its
squared distance is at most the square of
`covalent_radius(atom1) + covalent_radius(atom2) + 0.5`; a pair at
exactly the threshold distance is accepted and a pair at distance
`threshold + 0.00001` is rejected. -/
theorem link_threshold_acceptance (r1 r2 dsq : ℚ) (h1 : 0 ≤ r1) (h2 : 0 ≤ r2) :
    (acceptsByRadius r1 r2 dsq = true ↔
      dsq ≤ ((r1 + r2) + 1/2) * ((r1 + r2) + 1/2)) ∧
    acceptsByRadius r1 r2 (((r1 + r2) + 1/2) * ((r1 + r2) + 1/2)) = true ∧
    acceptsByRadius r1 r2
      ((((r1 + r2) + 1/2) + 1/100000) * (((r1 + r2) + 1/2) + 1/100000)) = false := by
  refine ⟨?_, ?_, ?_⟩
  · simp [acceptsByRadius, not_lt]
  · simp [acceptsByRadius]
  · have ht : ((r1 + r2) + 1/2) * ((r1 + r2) + 1/2) <
        (((r1 + r2) + 1/2) + 1/100000) * (((r1 + r2) + 1/2) + 1/100000) := by nlinarith
    simp only [acceptsByRadius, gt_iff_lt]
    rw [if_pos ht]

theorem link_threshold_acceptance_witness :
    (0 : ℚ) ≤ 3/4 ∧ (0 : ℚ) ≤ 1/2 ∧
    ((acceptsByRadius (3/4) (1/2) 1 = true ↔
        (1 : ℚ) ≤ ((3/4 + 1/2) + 1/2) * ((3/4 + 1/2) + 1/2)) ∧
      acceptsByRadius (3/4) (1/2) (((3/4 + 1/2) + 1/2) * ((3/4 + 1/2) + 1/2)) = true ∧
      acceptsByRadius (3/4) (1/2)
        ((((3/4 + 1/2) + 1/2) + 1/100000) * (((3/4 + 1/2) + 1/2) + 1/100000)) = false) :=
  ⟨by norm_num, by norm_num,
    link_threshold_acceptance (3/4) (1/2) 1 (by norm_num) (by norm_num)⟩

/-! ### Structure of one detection pass -/

theorem processContact_cases (m : Model) (st : Structure) (k : Nat) (c : Contact) :
    ((∀ cra1 cra2, ¬(m.deref c.loc1 = some cra1 ∧ m.deref c.loc2 = some cra2)) ∧
      processContact m st k c = (st, k)) ∨
    (∃ cra1 cra2, m.deref c.loc1 = some cra1 ∧ m.deref c.loc2 = some cra2 ∧
      (acceptsByRadius cra1.atom.covR cra2.atom.covR c.distSq = false ∨
        st.findConnectionByCra (craAddress cra1) (craAddress cra2) = true) ∧
      processContact m st k c = (st, k)) ∨
    (∃ cra1 cra2, m.deref c.loc1 = some cra1 ∧ m.deref c.loc2 = some cra2 ∧
      acceptsByRadius cra1.atom.covR cra2.atom.covR c.distSq = true ∧
      st.findConnectionByCra (craAddress cra1) (craAddress cra2) = false ∧
      processContact m st k c =
        (⟨st.connections ++ [connFor (k + 1) cra1 cra2 c.imageIdx c.distSq]⟩, k + 1)) := by
  cases h1 : m.deref c.loc1 with
  | none =>
    refine Or.inl ⟨?_, by unfold processContact; rw [h1]⟩
    rintro cra1 cra2 ⟨ha, _⟩
    cases ha
  | some cra1 =>
    cases h2 : m.deref c.loc2 with
    | none =>
      refine Or.inl ⟨?_, by unfold processContact; rw [h1, h2]⟩
      rintro cra1a cra2 ⟨_, hb⟩
      cases hb
    | some cra2 =>
      have hred : processContact m st k c =
          (if acceptsByRadius cra1.atom.covR cra2.atom.covR c.distSq = false then (st, k)
           else if st.findConnectionByCra (craAddress cra1) (craAddress cra2) = true then
             (st, k)
           else (⟨st.connections ++ [connFor (k + 1) cra1 cra2 c.imageIdx c.distSq]⟩,
             k + 1)) := by
        unfold processContact
        rw [h1, h2]
      by_cases ha : acceptsByRadius cra1.atom.covR cra2.atom.covR c.distSq = false
      · exact Or.inr (Or.inl ⟨cra1, cra2, rfl, rfl, Or.inl ha, by rw [hred, if_pos ha]⟩)
      · by_cases hf : st.findConnectionByCra (craAddress cra1) (craAddress cra2) = true
        · exact Or.inr (Or.inl ⟨cra1, cra2, rfl, rfl, Or.inr hf,
            by rw [hred, if_neg ha, if_pos hf]⟩)
        · exact Or.inr (Or.inr ⟨cra1, cra2, rfl, rfl, by simpa using ha, by simpa using hf,
            by rw [hred, if_neg ha, if_neg hf]⟩)

theorem fold_connections_append (m : Model) :
    ∀ (l : List Contact) (st : Structure) (k : Nat),
      ∃ t, (l.foldl (assignStep m) (st, k)).1.connections = st.connections ++ t := by
  intro l
  induction l with
  | nil => intro st k; exact ⟨[], by simp⟩
  | cons c l ih =>
    intro st k
    rw [List.foldl_cons]
    rcases processContact_cases m st k c with ⟨_, h⟩ | ⟨_, _, _, _, _, h⟩ |
      ⟨cra1, cra2, _, _, _, _, h⟩
    · rw [assignStep_def, h]; exact ih st k
    · rw [assignStep_def, h]; exact ih st k
    · rw [assignStep_def, h]
      rcases ih ⟨st.connections ++ [connFor (k + 1) cra1 cra2 c.imageIdx c.distSq]⟩ (k + 1)
        with ⟨t, ht⟩
      refine ⟨connFor (k + 1) cra1 cra2 c.imageIdx c.distSq :: t, ?_⟩
      rw [ht, List.append_assoc]
      rfl

theorem findConnectionByCra_append (conns t : List Connection) (a1 a2 : AtomAddress)
    (h : Structure.findConnectionByCra ⟨conns⟩ a1 a2 = true) :
    Structure.findConnectionByCra ⟨conns ++ t⟩ a1 a2 = true := by
  simp only [Structure.findConnectionByCra, List.any_append, Bool.or_eq_true] at h ⊢
  exact Or.inl h

theorem addrMatches_refl (a : AtomAddress) : addrMatches a a = true := by
  simp [addrMatches, strIEq]

theorem findConnectionByCra_self (conns : List Connection) (j : Nat) (cra1 cra2 : CRA)
    (i : Int) (d : ℚ) :
    Structure.findConnectionByCra ⟨conns ++ [connFor j cra1 cra2 i d]⟩
      (craAddress cra1) (craAddress cra2) = true := by
  simp [Structure.findConnectionByCra, List.any_append, connFor, addrMatches_refl]

/-- A contact that the callback will not turn into a new connection, given
the current connection list: either its pair fails the covalent-radius
threshold, or a connection between its two atoms already exists. -/
def contactHandled (m : Model) (conns : List Connection) (c : Contact) : Prop :=
  ∀ cra1 cra2, m.deref c.loc1 = some cra1 → m.deref c.loc2 = some cra2 →
    acceptsByRadius cra1.atom.covR cra2.atom.covR c.distSq = false ∨
    Structure.findConnectionByCra ⟨conns⟩ (craAddress cra1) (craAddress cra2) = true

theorem contactHandled_append (m : Model) (conns t : List Connection) (c : Contact)
    (h : contactHandled m conns c) : contactHandled m (conns ++ t) c := by
  intro cra1 cra2 h1 h2
  rcases h cra1 cra2 h1 h2 with h | h
  · exact Or.inl h
  · exact Or.inr (findConnectionByCra_append conns t _ _ h)

theorem processContact_of_handled (m : Model) (st : Structure) (k : Nat) (c : Contact)
    (h : contactHandled m st.connections c) : processContact m st k c = (st, k) := by
  rcases processContact_cases m st k c with ⟨_, heq⟩ | ⟨_, _, _, _, _, heq⟩ |
    ⟨cra1, cra2, h1, h2, ha, hf, heq⟩
  · exact heq
  · exact heq
  · rcases h cra1 cra2 h1 h2 with hacc | hfind
    · rw [ha] at hacc; cases hacc
    · rw [show Structure.findConnectionByCra ⟨st.connections⟩ (craAddress cra1)
            (craAddress cra2) = st.findConnectionByCra (craAddress cra1) (craAddress cra2)
          from rfl, hf] at hfind
      cases hfind

theorem processContact_handles_self (m : Model) (st : Structure) (k : Nat) (c : Contact) :
    contactHandled m (processContact m st k c).1.connections c := by
  intro cra1 cra2 h1 h2
  rcases processContact_cases m st k c with ⟨hno, _⟩ | ⟨cra1a, cra2a, h1a, h2a, hor, heq⟩ |
    ⟨cra1a, cra2a, h1a, h2a, ha, hf, heq⟩
  · exact absurd ⟨h1, h2⟩ (hno cra1 cra2)
  · have e1 : cra1 = cra1a := Option.some.inj (h1.symm.trans h1a)
    have e2 : cra2 = cra2a := Option.some.inj (h2.symm.trans h2a)
    cases e1
    cases e2
    rw [heq]
    rcases hor with hacc | hfind
    · exact Or.inl hacc
    · exact Or.inr hfind
  · have e1 : cra1 = cra1a := Option.some.inj (h1.symm.trans h1a)
    have e2 : cra2 = cra2a := Option.some.inj (h2.symm.trans h2a)
    cases e1
    cases e2
    rw [heq]
    exact Or.inr
      (findConnectionByCra_self st.connections (k + 1) cra1 cra2 c.imageIdx c.distSq)

theorem fold_handles_all (m : Model) :
    ∀ (l : List Contact) (st : Structure) (k : Nat) (c : Contact), c ∈ l →
      contactHandled m ((l.foldl (assignStep m) (st, k)).1.connections) c := by
  intro l
  induction l with
  | nil => intro st k c hc; cases hc
  | cons c0 l ih =>
    intro st k c hc
    rw [List.foldl_cons,
      show assignStep m (st, k) c0
        = ((processContact m st k c0).1, (processContact m st k c0).2) from rfl]
    rcases List.mem_cons.mp hc with rfl | hc
    · rcases fold_connections_append m l (processContact m st k c).1
        (processContact m st k c).2 with ⟨t, ht⟩
      rw [ht]
      exact contactHandled_append m _ t c (processContact_handles_self m st k c)
    · exact ih (processContact m st k c0).1 (processContact m st k c0).2 c hc

theorem fold_noop_of_handled (m : Model) :
    ∀ (l : List Contact) (st : Structure) (k : Nat),
      (∀ c ∈ l, contactHandled m st.connections c) →
      l.foldl (assignStep m) (st, k) = (st, k) := by
  intro l
  induction l with
  | nil => intro st k _; rfl
  | cons c0 l ih =>
    intro st k h
    rw [List.foldl_cons, assignStep_def,
      processContact_of_handled m st k c0 (h c0 (List.mem_cons_self c0 l))]
    exact ih st k fun c hc => h c (List.mem_cons_of_mem c0 hc)

/-- C4: link detection is idempotent with respect to the existing-connection
set: running `assign_connections` a second time, with the first run's newly
created connections already present in the structure, creates no new
connection, because every pair already connected is skipped. -/
theorem detect_links_idempotent (m : Model) (st : Structure) (raw : List Contact) :
    newConnections m (assignConnections m st raw) raw = [] := by
  have hfix : (deliveredContacts raw).foldl (assignStep m) (assignConnections m st raw, 0)
      = (assignConnections m st raw, 0) := by
    apply fold_noop_of_handled
    intro c hc
    exact fold_handles_all m (deliveredContacts raw) st 0 c hc
  show (assignConnections m (assignConnections m st raw) raw).connections.drop
      (assignConnections m st raw).connections.length = []
  rw [show assignConnections m (assignConnections m st raw) raw
        = ((deliveredContacts raw).foldl (assignStep m) (assignConnections m st raw, 0)).1
      from rfl, hfix]
  exact List.drop_length _

/-! ### Provenance of the created connections -/

theorem fold_new_get (m : Model) :
    ∀ (l : List Contact) (st : Structure) (k : Nat) (i : Nat),
      i < ((l.foldl (assignStep m) (st, k)).1.connections.drop st.connections.length).length →
      ∃ c ∈ l, ∃ cra1 cra2,
        m.deref c.loc1 = some cra1 ∧ m.deref c.loc2 = some cra2 ∧
        acceptsByRadius cra1.atom.covR cra2.atom.covR c.distSq = true ∧
        ((l.foldl (assignStep m) (st, k)).1.connections.drop st.connections.length).get? i
          = some (connFor (k + i + 1) cra1 cra2 c.imageIdx c.distSq) := by
  intro l
  induction l with
  | nil =>
    intro st k i hi
    rw [List.foldl_nil, List.drop_length] at hi
    cases hi
  | cons c0 l ih =>
    intro st k i hi
    rcases processContact_cases m st k c0 with ⟨_, h⟩ | ⟨_, _, _, _, _, h⟩ |
      ⟨cra1, cra2, hd1, hd2, ha, _, h⟩
    · rw [List.foldl_cons, assignStep_def, h] at hi ⊢
      rcases ih st k i hi with ⟨c, hc, hrest⟩
      exact ⟨c, List.mem_cons_of_mem c0 hc, hrest⟩
    · rw [List.foldl_cons, assignStep_def, h] at hi ⊢
      rcases ih st k i hi with ⟨c, hc, hrest⟩
      exact ⟨c, List.mem_cons_of_mem c0 hc, hrest⟩
    · rw [List.foldl_cons, assignStep_def, h] at hi ⊢
      have hsplit :
          ∀ t, (⟨st.connections ++ [connFor (k + 1) cra1 cra2 c0.imageIdx c0.distSq]⟩
              : Structure).connections ++ t
            = st.connections ++ (connFor (k + 1) cra1 cra2 c0.imageIdx c0.distSq :: t) := by
        intro t
        rw [List.append_assoc]
        rfl
      rcases fold_connections_append m l
        ⟨st.connections ++ [connFor (k + 1) cra1 cra2 c0.imageIdx c0.distSq]⟩ (k + 1)
        with ⟨t, ht⟩
      have hdropped :
          (l.foldl (assignStep m)
              (⟨st.connections ++ [connFor (k + 1) cra1 cra2 c0.imageIdx c0.distSq]⟩,
                k + 1)).1.connections.drop st.connections.length
            = connFor (k + 1) cra1 cra2 c0.imageIdx c0.distSq :: t := by
        rw [ht, hsplit, List.drop_left]
      have hdropped1 :
          (l.foldl (assignStep m)
              (⟨st.connections ++ [connFor (k + 1) cra1 cra2 c0.imageIdx c0.distSq]⟩,
                k + 1)).1.connections.drop
            (st.connections ++ [connFor (k + 1) cra1 cra2 c0.imageIdx c0.distSq]).length
            = t := by
        rw [ht, List.drop_left]
      cases i with
      | zero =>
        refine ⟨c0, List.mem_cons_self c0 l, cra1, cra2, hd1, hd2, ha, ?_⟩
        rw [hdropped]
        rfl
      | succ j =>
        rw [hdropped] at hi
        have hj : j < ((l.foldl (assignStep m)
            (⟨st.connections ++ [connFor (k + 1) cra1 cra2 c0.imageIdx c0.distSq]⟩,
              k + 1)).1.connections.drop
            (st.connections ++ [connFor (k + 1) cra1 cra2 c0.imageIdx c0.distSq]).length).length := by
          rw [hdropped1]
          simpa using hi
        rcases ih ⟨st.connections ++ [connFor (k + 1) cra1 cra2 c0.imageIdx c0.distSq]⟩
          (k + 1) j hj with ⟨c, hc, cra1a, cra2a, hda, hdb, haa, hget⟩
        refine ⟨c, List.mem_cons_of_mem c0 hc, cra1a, cra2a, hda, hdb, haa, ?_⟩
        rw [hdropped]
        rw [hdropped1] at hget
        rw [show ∀ (x : Connection) (t2 : List Connection) (j2 : Nat),
              (x :: t2).get? (j2 + 1) = t2.get? j2 from fun _ _ _ => rfl]
        rw [hget]
        rw [show k + 1 + j + 1 = k + (j + 1) + 1 by omega]

/-- Every connection created by a run arises from a delivered contact, and is
exactly the record the callback builds for that contact. -/
theorem newConnections_src (m : Model) (st : Structure) (raw : List Contact)
    (conn : Connection) (h : conn ∈ newConnections m st raw) :
    ∃ c ∈ deliveredContacts raw, ∃ cra1 cra2,
      m.deref c.loc1 = some cra1 ∧ m.deref c.loc2 = some cra2 ∧
      ∃ j, conn = connFor j cra1 cra2 c.imageIdx c.distSq := by
  rcases List.mem_iff_get?.mp h with ⟨i, hget⟩
  have hi : i < (newConnections m st raw).length := (List.get?_eq_some.mp hget).1
  rcases fold_new_get m (deliveredContacts raw) st 0 i hi
    with ⟨c, hc, cra1, cra2, h1, h2, _, hg2⟩
  refine ⟨c, hc, cra1, cra2, h1, h2, 0 + i + 1, ?_⟩
  have : some conn = some (connFor (0 + i + 1) cra1 cra2 c.imageIdx c.distSq) :=
    hget.symm.trans hg2
  exact Option.some.inj this

theorem sameOrAdjacentLoc_true_symm (a b : Loc) (h : sameOrAdjacentLoc a b = true) :
    sameOrAdjacentLoc b a = true := by
  simp only [sameOrAdjacentLoc, Bool.and_eq_true, Bool.or_eq_true, decide_eq_true_eq]
    at h ⊢
  omega

/-- The fields of `Model.deref` success. -/
theorem deref_parts (m : Model) (l : Loc) (ca : CRA) (h : m.deref l = some ca) :
    m.chains.get? l.chain = some ca.chain ∧
    ca.chain.residues.get? l.res = some ca.residue ∧
    ca.residue.atoms.get? l.atom = some ca.atom := by
  unfold Model.deref at h
  rcases Option.bind_eq_some.mp h with ⟨ch, hc, h⟩
  rcases Option.bind_eq_some.mp h with ⟨r, hr, h⟩
  rcases Option.map_eq_some'.mp h with ⟨a, hat, he⟩
  cases he
  exact ⟨hc, hr, hat⟩

/-- All in-range atom locations of a model. -/
def allLocs (m : Model) : List Loc :=
  (List.range m.chains.length).flatMap fun ci =>
    (List.range ((m.chains.getD ci ⟨"", []⟩).residues.length)).flatMap fun ri =>
      (List.range
          (((m.chains.getD ci ⟨"", []⟩).residues.getD ri ⟨"", 0, []⟩).atoms.length)).map
        fun ai => ⟨ci, ri, ai⟩

theorem deref_mem_allLocs (m : Model) (l : Loc) (ca : CRA) (h : m.deref l = some ca) :
    l ∈ allLocs m := by
  rcases deref_parts m l ca h with ⟨hc, hr, hat⟩
  have hc1 : l.chain < m.chains.length := (List.get?_eq_some.mp hc).1
  have hcD : m.chains.getD l.chain ⟨"", []⟩ = ca.chain := by
    rw [List.getD_eq_get?, hc]
    rfl
  have hr1 : l.res < ca.chain.residues.length := (List.get?_eq_some.mp hr).1
  have hrD : ca.chain.residues.getD l.res ⟨"", 0, []⟩ = ca.residue := by
    rw [List.getD_eq_get?, hr]
    rfl
  have hat1 : l.atom < ca.residue.atoms.length := (List.get?_eq_some.mp hat).1
  rcases l with ⟨ci, ri, ai⟩
  simp only [allLocs, List.mem_flatMap, List.mem_map, List.mem_range]
  refine ⟨ci, hc1, ri, ?_, ai, ?_, rfl⟩
  · rw [hcD]
    exact hr1
  · rw [hcD, hrD]
    exact hat1

/-- Decidable address well-formedness of a model: two locations that
dereference to atoms with the same atom address are the same location.
It holds whenever chain names are unique, residue (seqid, name) pairs are
unique within each chain, and atom names are unique within each residue. -/
def wfAddresses (m : Model) : Bool :=
  (allLocs m).all fun la => (allLocs m).all fun lb =>
    match m.deref la, m.deref lb with
    | some ca, some cb => decide (la = lb) || !(decide (craAddress ca = craAddress cb))
    | _, _ => true

theorem wfAddresses_spec (m : Model) (hwf : wfAddresses m = true)
    (la lb : Loc) (ca cb : CRA)
    (ha : m.deref la = some ca) (hb : m.deref lb = some cb)
    (heq : craAddress ca = craAddress cb) : la = lb := by
  have h1 := List.all_eq_true.mp hwf la (deref_mem_allLocs m la ca ha)
  have h2 := List.all_eq_true.mp h1 lb (deref_mem_allLocs m lb cb hb)
  rw [ha, hb] at h2
  have h3 : (decide (la = lb) || !(decide (craAddress ca = craAddress cb))) = true := h2
  rcases Bool.or_eq_true_iff.mp h3 with h | h
  · exact of_decide_eq_true h
  · exact absurd heq (by simpa using h)

theorem delivered_not_adjacent (raw : List Contact) (c : Contact)
    (h : c ∈ deliveredContacts raw) : sameOrAdjacentLoc c.loc1 c.loc2 = false := by
  have hmem := List.mem_filter.mp h
  rcases Bool.and_eq_true_iff.mp hmem.2 with ⟨_, hb⟩
  simpa using hb

/-- C5: for a model whose atom addressing is well-formed, two atoms in
sequentially adjacent residues of the same chain never receive a new
connection from link detection, even if their distance satisfies the
covalent-radius threshold: no created connection carries that pair of
atom addresses as its partners. -/
theorem adjacent_residues_never_linked (m : Model) (st : Structure) (raw : List Contact)
    (hwf : wfAddresses m = true) (la lb : Loc) (ca cb : CRA)
    (hda : m.deref la = some ca) (hdb : m.deref lb = some cb)
    (hadj : sameOrAdjacentLoc la lb = true)
    (conn : Connection) (hconn : conn ∈ newConnections m st raw) :
    ¬ ((conn.partner1 = craAddress ca ∧ conn.partner2 = craAddress cb) ∨
       (conn.partner1 = craAddress cb ∧ conn.partner2 = craAddress ca)) := by
  intro hpair
  rcases newConnections_src m st raw conn hconn with ⟨c, hcdel, cra1, cra2, h1, h2, j, rfl⟩
  have hnadj := delivered_not_adjacent raw c hcdel
  have hp1 : (connFor j cra1 cra2 c.imageIdx c.distSq).partner1 = craAddress cra1 := rfl
  have hp2 : (connFor j cra1 cra2 c.imageIdx c.distSq).partner2 = craAddress cra2 := rfl
  rcases hpair with ⟨e1, e2⟩ | ⟨e1, e2⟩
  · have g1 : c.loc1 = la :=
      wfAddresses_spec m hwf c.loc1 la cra1 ca h1 hda (hp1.symm.trans e1)
    have g2 : c.loc2 = lb :=
      wfAddresses_spec m hwf c.loc2 lb cra2 cb h2 hdb (hp2.symm.trans e2)
    rw [g1, g2, hadj] at hnadj
    cases hnadj
  · have g1 : c.loc1 = lb :=
      wfAddresses_spec m hwf c.loc1 lb cra1 cb h1 hdb (hp1.symm.trans e1)
    have g2 : c.loc2 = la :=
      wfAddresses_spec m hwf c.loc2 la cra2 ca h2 hda (hp2.symm.trans e2)
    rw [g1, g2, sameOrAdjacentLoc_true_symm la lb hadj] at hnadj
    cases hnadj

/-- A chain with three one-atom residues, for the adjacency example. -/
def chainW5 : Chain :=
  ⟨"A", [⟨"R0", 1, [⟨"X", 1⟩]⟩, ⟨"R1", 2, [⟨"Y", 1⟩]⟩, ⟨"R2", 3, [⟨"Z", 1⟩]⟩]⟩

def modelW5 : Model := ⟨[chainW5]⟩

/-- One contact between the first and third residues, within bond distance. -/
def rawW5 : List Contact := [⟨⟨0, 0, 0⟩, ⟨0, 2, 0⟩, 0, 4⟩]

def craW5a : CRA := ⟨chainW5, ⟨"R0", 1, [⟨"X", 1⟩]⟩, ⟨"X", 1⟩⟩

def craW5b : CRA := ⟨chainW5, ⟨"R1", 2, [⟨"Y", 1⟩]⟩, ⟨"Y", 1⟩⟩

def craW5c : CRA := ⟨chainW5, ⟨"R2", 3, [⟨"Z", 1⟩]⟩, ⟨"Z", 1⟩⟩

def connW5 : Connection := connFor 1 craW5a craW5c 0 4

theorem newConnections_W5 : newConnections modelW5 ⟨[]⟩ rawW5 = [connW5] := by
  norm_num [newConnections, assignConnections, deliveredContacts, sameOrAdjacentLoc,
    assignStep, processContact, Model.deref, acceptsByRadius, connFor,
    Structure.findConnectionByCra, modelW5, chainW5, rawW5, connW5, craW5a, craW5c,
    List.filter, List.get?]

theorem adjacent_residues_never_linked_witness :
    wfAddresses modelW5 = true ∧
    modelW5.deref ⟨0, 0, 0⟩ = some craW5a ∧
    modelW5.deref ⟨0, 1, 0⟩ = some craW5b ∧
    sameOrAdjacentLoc ⟨0, 0, 0⟩ ⟨0, 1, 0⟩ = true ∧
    connW5 ∈ newConnections modelW5 ⟨[]⟩ rawW5 ∧
    ¬ ((connW5.partner1 = craAddress craW5a ∧ connW5.partner2 = craAddress craW5b) ∨
       (connW5.partner1 = craAddress craW5b ∧ connW5.partner2 = craAddress craW5a)) :=
  ⟨by decide, by decide, by decide, by decide,
    by rw [newConnections_W5]; exact List.mem_singleton.mpr rfl,
    adjacent_residues_never_linked modelW5 ⟨[]⟩ rawW5 (by decide) ⟨0, 0, 0⟩ ⟨0, 1, 0⟩
      craW5a craW5b (by decide) (by decide) (by decide) connW5
      (by rw [newConnections_W5]; exact List.mem_singleton.mpr rfl)⟩

/-- C6 (amended): every connection created by link detection has covalent
type, an asymmetric-unit flag that is Same exactly when the pair's image
index is the identity image and Different otherwise, a recorded squared
distance equal to the pair's observed squared distance (not the threshold),
partner addresses taken from the pair, and the counter-generated name
"added(i+1)" where i is its position among the newly created connections
— the name is not checked against the names of pre-existing connections. -/
theorem new_connection_fields (m : Model) (st : Structure) (raw : List Contact)
    (i : Nat) (hi : i < (newConnections m st raw).length) :
    ∃ c ∈ deliveredContacts raw, ∃ cra1 cra2,
      m.deref c.loc1 = some cra1 ∧ m.deref c.loc2 = some cra2 ∧
      acceptsByRadius cra1.atom.covR cra2.atom.covR c.distSq = true ∧
      (newConnections m st raw).get? i = some
        { name := "added" ++ Nat.repr (i + 1)
          type := ConnectionType.Covale
          asu := if c.imageIdx = 0 then Asu.Same else Asu.Different
          partner1 := craAddress cra1
          partner2 := craAddress cra2
          reportedDistanceSq := c.distSq } := by
  rcases fold_new_get m (deliveredContacts raw) st 0 i hi
    with ⟨c, hc, cra1, cra2, h1, h2, ha, hg⟩
  rw [Nat.zero_add] at hg
  exact ⟨c, hc, cra1, cra2, h1, h2, ha, hg⟩

/-- Two single-residue chains for the name-clash example. -/
def modelX6 : Model :=
  ⟨[⟨"A", [⟨"R0", 1, [⟨"X", 1⟩]⟩]⟩, ⟨"B", [⟨"S0", 1, [⟨"Y", 1⟩]⟩]⟩]⟩

/-- One accepted contact between the two chains. -/
def rawX6 : List Contact := [⟨⟨0, 0, 0⟩, ⟨1, 0, 0⟩, 0, 4⟩]

/-- A pre-existing connection that already carries the name added1. -/
def preX6 : Connection :=
  ⟨"added1", ConnectionType.Covale, Asu.Same, ⟨"Q", 9, "QQ", "QA"⟩, ⟨"Q", 8, "QQ", "QB"⟩, 0⟩

def stX6 : Structure := ⟨[preX6]⟩

def craX6a : CRA := ⟨⟨"A", [⟨"R0", 1, [⟨"X", 1⟩]⟩]⟩, ⟨"R0", 1, [⟨"X", 1⟩]⟩, ⟨"X", 1⟩⟩

def craX6b : CRA := ⟨⟨"B", [⟨"S0", 1, [⟨"Y", 1⟩]⟩]⟩, ⟨"S0", 1, [⟨"Y", 1⟩]⟩, ⟨"Y", 1⟩⟩

theorem newConnections_X6 :
    newConnections modelX6 stX6 rawX6 = [connFor 1 craX6a craX6b 0 4] := by
  norm_num [newConnections, assignConnections, deliveredContacts, sameOrAdjacentLoc,
    assignStep, processContact, Model.deref, acceptsByRadius, connFor,
    Structure.findConnectionByCra, addrMatches, strIEq, lowerString, craAddress,
    modelX6, stX6, preX6, rawX6, craX6a, craX6b, List.filter, List.get?]

/-- C6 counterexample: the generated name of a created connection is not
always distinct from the names of pre-existing connections: when a
pre-existing connection is already named added1, the first connection
created by the run is also named added1. -/
theorem new_connection_name_clash :
    ∃ conn ∈ newConnections modelX6 stX6 rawX6, ∃ pre ∈ stX6.connections,
      conn.name = pre.name := by
  rw [newConnections_X6]
  exact ⟨connFor 1 craX6a craX6b 0 4, List.mem_singleton.mpr rfl,
    preX6, List.mem_singleton.mpr rfl, by decide⟩

theorem new_connection_fields_witness :
    0 < (newConnections modelX6 stX6 rawX6).length ∧
    (∃ c ∈ deliveredContacts rawX6, ∃ cra1 cra2,
      modelX6.deref c.loc1 = some cra1 ∧ modelX6.deref c.loc2 = some cra2 ∧
      acceptsByRadius cra1.atom.covR cra2.atom.covR c.distSq = true ∧
      (newConnections modelX6 stX6 rawX6).get? 0 = some
        { name := "added" ++ Nat.repr (0 + 1)
          type := ConnectionType.Covale
          asu := if c.imageIdx = 0 then Asu.Same else Asu.Different
          partner1 := craAddress cra1
          partner2 := craAddress cra2
          reportedDistanceSq := c.distSq }) :=
  ⟨by rw [newConnections_X6]; decide,
    new_connection_fields modelX6 stX6 rawX6 0 (by rw [newConnections_X6]; decide)⟩

/-! ## Monomer resolution (prog/prep.cpp lines 103-147) -/

/-- A chemical-component definition; `adHoc` marks definitions produced by
restraint synthesis rather than read from a curated library. -/
structure ChemComp where
  name : String
  adHoc : Bool
  atomNames : List String
deriving DecidableEq

/-- A monomer library source: a finite name-indexed set of definitions. -/
abbrev Lib := List (String × ChemComp)

/-- Look a name up in a library source. -/
def libFind (lib : Lib) (n : String) : Option ChemComp :=
  (lib.find? fun p => p.1 = n).map Prod.snd

/-- `MonLib`: its `std::map` of monomers, modelled as an insertion-ordered
association list with at most one entry per name. -/
structure MonLib where
  monomers : List (String × ChemComp)
deriving DecidableEq

/-- `monomers.count(s) != 0`. -/
def MonLib.containsName (ml : MonLib) (n : String) : Bool :=
  ml.monomers.any fun p => p.1 = n

/-- The definition stored for a name, if any. -/
def MonLib.lookup (ml : MonLib) (n : String) : Option ChemComp :=
  (ml.monomers.find? fun p => p.1 = n).map Prod.snd

/-- `std::map::emplace`: insert only when the key is not yet present; an
existing entry is never replaced. -/
def MonLib.emplace (ml : MonLib) (n : String) (cc : ChemComp) : MonLib :=
  if ml.containsName n then ml else ⟨ml.monomers ++ [(n, cc)]⟩

/-- Modelled from the spec: `MonLib::read_monomer_cif` reads one user
library and contributes each of its definitions; a name already present in
the monomer map is not replaced (first write wins). -/
def MonLib.readMonomerCif (ml : MonLib) (lib : Lib) : MonLib :=
  lib.foldl (fun a p => a.emplace p.1 p.2) ml

/-- One name of a `read_monomer_lib` query: add the installed definition
when the directory has one, otherwise leave the map unchanged (the name is
reported in the error string, printed by the caller as a warning). -/
def readLibStep (installed : Lib) (a : MonLib) (n : String) : MonLib :=
  match libFind installed n with
  | some cc => a.emplace n cc
  | none => a

/-- Modelled from the spec: `MonLib::read_monomer_lib` queries the
installed monomer library for exactly the requested residue names. -/
def MonLib.readMonomerLibNames (ml : MonLib) (installed : Lib)
    (wanted : List String) : MonLib :=
  wanted.foldl (readLibStep installed) ml

/-- Modelled from the spec: `Model::get_all_residue_names`, the distinct
residue names present in the model, in traversal order. -/
def Model.allResidueNames (m : Model) : List String :=
  ((m.chains.map fun ch => ch.residues.map Residue.name).flatten).eraseDups

/-- The override-library loading phase (the `--lib` options, prog/prep.cpp
lines 114-115), starting from an empty `MonLib`. -/
def loadOverrides (overrides : List Lib) : MonLib :=
  overrides.foldl MonLib.readMonomerCif ⟨[]⟩

/-- The name set passed to `read_monomer_lib`: all residue names of the
model except those already resolved by the override libraries
(`vector_remove_if`, prog/prep.cpp lines 123-124). -/
def installedQueryNames (overrides : List Lib) (m : Model) : List String :=
  (m.allResidueNames).filter fun s => !(loadOverrides overrides).containsName s

/-- The monomer-resolution phase of GEMMI_MAIN (prog/prep.cpp lines
103-133): load override libraries, query the installed library for the
still-unresolved names, load fallback (`--low`) libraries, and recompute
the unresolved subset. -/
def resolveMonomers (overrides : List Lib) (installed : Lib) (fallbacks : List Lib)
    (m : Model) : MonLib × List String :=
  let ml1 := loadOverrides overrides
  let needed := installedQueryNames overrides m
  let ml2 := ml1.readMonomerLibNames installed needed
  let ml3 := fallbacks.foldl MonLib.readMonomerCif ml2
  (ml3, needed.filter fun s => !ml3.containsName s)

/-- Modelled from the spec: `make_chemcomp_with_restraints` derives an
ad-hoc definition from one observed residue; the bond and angle inference
is the external geometry service, so only the shape of the produced
definition matters here. -/
def makeChemcompWithRestraints (r : Residue) : ChemComp :=
  ⟨r.name, true, r.atoms.map Atom.name⟩

/-- One name of the ad-hoc synthesis loop (prog/prep.cpp lines 141-144):
only a name still absent from the monomer map, for which a template
residue exists in the model, is inserted. -/
def synthStep (m : Model) (a : MonLib) (n : String) : MonLib :=
  if a.containsName n then a
  else
    match findMostCompleteResidue n m with
    | some res => a.emplace n (makeChemcompWithRestraints res)
    | none => a

/-- The ad-hoc synthesis loop over all unmet names. -/
def synthesizeMissing (ml : MonLib) (needed : List String) (m : Model) : MonLib :=
  needed.foldl (synthStep m) ml

/-- The missing-definition warning line (prog/prep.cpp line 137). -/
def missingWarning (n : String) : String :=
  "WARNING: definition not found for " ++ n ++ "."

/-- The ad-hoc restraint warning (prog/prep.cpp lines 145-146). -/
def adHocWarning : String :=
  "WARNING: Using ad-hoc restraints for missing monomers."

/-- Outcome of the missing-monomer handling: `fatal` models `fail(...)`
(which aborts the run), `ok` models continuing with the resolved map. -/
inductive PrepResult where
  | fatal (warnings : List String) (msg : String)
  | ok (warnings : List String) (ml : MonLib)
deriving DecidableEq

/-- The missing-monomer handling of GEMMI_MAIN (prog/prep.cpp lines
135-147): if unmet names remain, warn about each of them; then abort when
ad-hoc synthesis is disabled, and synthesize the missing definitions
otherwise. -/
def handleMissing (ml : MonLib) (needed : List String) (makeNewLigands : Bool)
    (m : Model) : PrepResult :=
  if needed.isEmpty then PrepResult.ok [] ml
  else if makeNewLigands = false then
    PrepResult.fatal (needed.map missingWarning) "Missing monomer definitions"
  else
    PrepResult.ok (needed.map missingWarning ++ [adHocWarning])
      (synthesizeMissing ml needed m)

/-! ### Map growth lemmas -/

theorem containsName_of_lookup_some (ml : MonLib) (n : String) (d : ChemComp)
    (h : ml.lookup n = some d) : ml.containsName n = true := by
  unfold MonLib.lookup at h
  rcases Option.map_eq_some'.mp h with ⟨p, hp, _⟩
  unfold MonLib.containsName
  rw [List.any_eq_true]
  refine ⟨p, List.mem_of_find?_eq_some hp, ?_⟩
  have h2 := List.find?_some hp
  exact h2

theorem lookup_emplace_of_some (ml : MonLib) (k n : String) (cc d : ChemComp)
    (h : ml.lookup n = some d) : (ml.emplace k cc).lookup n = some d := by
  unfold MonLib.emplace
  by_cases hc : ml.containsName k = true
  · rw [if_pos hc]
    exact h
  · rw [if_neg hc]
    unfold MonLib.lookup at h ⊢
    rcases Option.map_eq_some'.mp h with ⟨p, hp, he⟩
    rw [List.find?_append, hp]
    simpa using he

theorem lookup_emplace_ne_none (ml : MonLib) (k n : String) (cc : ChemComp)
    (hne : k ≠ n) (h : ml.lookup n = none) : (ml.emplace k cc).lookup n = none := by
  unfold MonLib.emplace
  by_cases hc : ml.containsName k = true
  · rw [if_pos hc]
    exact h
  · rw [if_neg hc]
    unfold MonLib.lookup at h ⊢
    rw [Option.map_eq_none'] at h
    rw [Option.map_eq_none', List.find?_append, h]
    simp [hne]

theorem lookup_readMonomerCif_of_some (ml : MonLib) (lib : Lib) (n : String)
    (d : ChemComp) (h : ml.lookup n = some d) :
    (ml.readMonomerCif lib).lookup n = some d := by
  unfold MonLib.readMonomerCif
  induction lib generalizing ml with
  | nil => exact h
  | cons p l ih =>
    rw [List.foldl_cons]
    exact ih (ml.emplace p.1 p.2) (lookup_emplace_of_some ml p.1 n p.2 d h)

theorem lookup_foldl_cif_of_some (libs : List Lib) (ml : MonLib) (n : String)
    (d : ChemComp) (h : ml.lookup n = some d) :
    (libs.foldl MonLib.readMonomerCif ml).lookup n = some d := by
  induction libs generalizing ml with
  | nil => exact h
  | cons lib libs ih =>
    rw [List.foldl_cons]
    exact ih (ml.readMonomerCif lib) (lookup_readMonomerCif_of_some ml lib n d h)

theorem lookup_readLibStep_of_some (inst : Lib) (a : MonLib) (w n : String)
    (d : ChemComp) (h : a.lookup n = some d) :
    (readLibStep inst a w).lookup n = some d := by
  unfold readLibStep
  cases hf : libFind inst w with
  | none => exact h
  | some cc => exact lookup_emplace_of_some a w n cc d h

theorem lookup_readMonomerLibNames_of_some (ml : MonLib) (inst : Lib)
    (wanted : List String) (n : String) (d : ChemComp) (h : ml.lookup n = some d) :
    (ml.readMonomerLibNames inst wanted).lookup n = some d := by
  unfold MonLib.readMonomerLibNames
  induction wanted generalizing ml with
  | nil => exact h
  | cons w l ih =>
    rw [List.foldl_cons]
    exact ih (readLibStep inst ml w) (lookup_readLibStep_of_some inst ml w n d h)

theorem lookup_synthStep_of_some (m : Model) (a : MonLib) (w n : String)
    (d : ChemComp) (h : a.lookup n = some d) :
    (synthStep m a w).lookup n = some d := by
  unfold synthStep
  by_cases hc : a.containsName w = true
  · rw [if_pos hc]
    exact h
  · rw [if_neg hc]
    cases hf : findMostCompleteResidue w m with
    | none => exact h
    | some res => exact lookup_emplace_of_some a w n _ d h

theorem lookup_synthesizeMissing_of_some (ml : MonLib) (needed : List String)
    (m : Model) (n : String) (d : ChemComp) (h : ml.lookup n = some d) :
    (synthesizeMissing ml needed m).lookup n = some d := by
  unfold synthesizeMissing
  induction needed generalizing ml with
  | nil => exact h
  | cons w l ih =>
    rw [List.foldl_cons]
    exact ih (synthStep m ml w) (lookup_synthStep_of_some m ml w n d h)

theorem synthStep_lookup_none (m : Model) (a : MonLib) (w n : String)
    (hno : findMostCompleteResidue n m = none) (hn : a.lookup n = none) :
    (synthStep m a w).lookup n = none := by
  unfold synthStep
  by_cases hc : a.containsName w = true
  · rw [if_pos hc]
    exact hn
  · rw [if_neg hc]
    by_cases hw : w = n
    · subst hw
      rw [hno]
      exact hn
    · cases hf : findMostCompleteResidue w m with
      | none => exact hn
      | some res => exact lookup_emplace_ne_none a w n _ hw hn

theorem synthesize_lookup_none (ml : MonLib) (needed : List String) (m : Model)
    (n : String) (hno : findMostCompleteResidue n m = none)
    (hn : ml.lookup n = none) : (synthesizeMissing ml needed m).lookup n = none := by
  unfold synthesizeMissing
  induction needed generalizing ml with
  | nil => exact hn
  | cons w l ih =>
    rw [List.foldl_cons]
    exact ih (synthStep m ml w) (synthStep_lookup_none m ml w n hno hn)

/-! ### The resolution claims -/

/-- C1: override libraries are loaded first; the installed monomer library
is queried only for the residue names not already resolved by the
overrides; consequently a name defined both by an override library and by
the installed library keeps its override definition in the final resolved
set. -/
theorem override_priority (overrides : List Lib) (installed : Lib)
    (fallbacks : List Lib) (m : Model) (n : String) (d dInst : ChemComp)
    (hov : (loadOverrides overrides).lookup n = some d)
    (hinst : libFind installed n = some dInst) :
    n ∉ installedQueryNames overrides m ∧
    (resolveMonomers overrides installed fallbacks m).1.lookup n = some d := by
  constructor
  · intro hmem
    have hf := (List.mem_filter.mp hmem).2
    rw [containsName_of_lookup_some (loadOverrides overrides) n d hov] at hf
    cases hf
  · show (fallbacks.foldl MonLib.readMonomerCif
        ((loadOverrides overrides).readMonomerLibNames installed
          (installedQueryNames overrides m))).lookup n = some d
    exact lookup_foldl_cif_of_some fallbacks _ n d
      (lookup_readMonomerLibNames_of_some (loadOverrides overrides) installed
        (installedQueryNames overrides m) n d hov)

def ccOverride : ChemComp := ⟨"LIG", false, ["C1", "C2"]⟩

def ccInstalled : ChemComp := ⟨"LIG", false, ["C1", "C2", "C3"]⟩

def modelW1 : Model := ⟨[⟨"A", [⟨"LIG", 1, [⟨"C1", 1⟩]⟩, ⟨"ALA", 2, [⟨"N", 1⟩]⟩]⟩]⟩

theorem override_priority_witness :
    (loadOverrides [[("LIG", ccOverride)]]).lookup "LIG" = some ccOverride ∧
    libFind [("LIG", ccInstalled), ("ALA", ccInstalled)] "LIG" = some ccInstalled ∧
    ("LIG" ∉ installedQueryNames [[("LIG", ccOverride)]] modelW1 ∧
      (resolveMonomers [[("LIG", ccOverride)]]
          [("LIG", ccInstalled), ("ALA", ccInstalled)] [] modelW1).1.lookup "LIG"
        = some ccOverride) :=
  ⟨by decide, by decide,
    override_priority [[("LIG", ccOverride)]] [("LIG", ccInstalled), ("ALA", ccInstalled)]
      [] modelW1 "LIG" ccOverride ccInstalled (by decide) (by decide)⟩

/-- C7: with unmet residue names remaining after resolution and ad-hoc
synthesis disabled, the run aborts fatally after reporting every missing
name; with synthesis enabled it proceeds. -/
theorem missing_monomers_fatal_or_proceed (ml : MonLib) (needed : List String)
    (makeNewLigands : Bool) (m : Model) (hne : needed ≠ []) :
    (makeNewLigands = false →
      handleMissing ml needed makeNewLigands m
        = PrepResult.fatal (needed.map missingWarning) "Missing monomer definitions" ∧
      ∀ n ∈ needed, missingWarning n ∈ needed.map missingWarning) ∧
    (makeNewLigands = true →
      ∃ ws ml2, handleMissing ml needed makeNewLigands m = PrepResult.ok ws ml2) := by
  have hni : ¬ needed.isEmpty = true := by
    cases needed with
    | nil => exact absurd rfl hne
    | cons a l => simp
  constructor
  · rintro rfl
    refine ⟨?_, fun n hn => List.mem_map_of_mem missingWarning hn⟩
    unfold handleMissing
    rw [if_neg hni, if_pos rfl]
  · rintro rfl
    refine ⟨needed.map missingWarning ++ [adHocWarning], synthesizeMissing ml needed m, ?_⟩
    unfold handleMissing
    rw [if_neg hni, if_neg (by simp)]

theorem missing_monomers_fatal_or_proceed_witness :
    (["XYZ"] : List String) ≠ [] ∧
    ((false = false →
      handleMissing ⟨[]⟩ ["XYZ"] false modelW1
        = PrepResult.fatal (["XYZ"].map missingWarning) "Missing monomer definitions" ∧
      ∀ n ∈ ["XYZ"], missingWarning n ∈ ["XYZ"].map missingWarning) ∧
    (false = true →
      ∃ ws ml2, handleMissing ⟨[]⟩ ["XYZ"] false modelW1 = PrepResult.ok ws ml2)) :=
  ⟨by decide, missing_monomers_fatal_or_proceed ⟨[]⟩ ["XYZ"] false modelW1 (by decide)⟩

/-- C8: with synthesis enabled, an unmet name that has no residue instance
in the model to serve as template stays unmet — it is absent from the
resolved set — while it has been reported in the per-name warning lines,
and the rest of the run proceeds. -/
theorem no_template_remains_unmet (ml : MonLib) (needed : List String) (m : Model)
    (n : String) (hmem : n ∈ needed)
    (hno : findMostCompleteResidue n m = none)
    (hunmet : ml.lookup n = none) :
    ∃ ws ml2, handleMissing ml needed true m = PrepResult.ok ws ml2 ∧
      ml2.lookup n = none ∧ missingWarning n ∈ ws := by
  have hni : ¬ needed.isEmpty = true := by
    cases needed with
    | nil => cases hmem
    | cons a l => simp
  have heq : handleMissing ml needed true m
      = PrepResult.ok (needed.map missingWarning ++ [adHocWarning])
          (synthesizeMissing ml needed m) := by
    unfold handleMissing
    rw [if_neg hni, if_neg (by simp)]
  refine ⟨_, _, heq, ?_, ?_⟩
  · exact synthesize_lookup_none ml needed m n hno hunmet
  · exact List.mem_append_left _ (List.mem_map_of_mem missingWarning hmem)

def modelW8 : Model := ⟨[⟨"A", [⟨"ALA", 1, [⟨"N", 1⟩]⟩]⟩]⟩

theorem no_template_remains_unmet_witness :
    "XYZ" ∈ (["XYZ"] : List String) ∧
    findMostCompleteResidue "XYZ" modelW8 = none ∧
    MonLib.lookup ⟨[]⟩ "XYZ" = none ∧
    (∃ ws ml2, handleMissing ⟨[]⟩ ["XYZ"] true modelW8 = PrepResult.ok ws ml2 ∧
      ml2.lookup "XYZ" = none ∧ missingWarning "XYZ" ∈ ws) :=
  ⟨by decide, by decide, by decide,
    no_template_remains_unmet ⟨[]⟩ ["XYZ"] modelW8 "XYZ" (by decide) (by decide)
      (by decide)⟩

/-- C9: during one preparation run the resolved monomer set and the
connection set only grow: each core operation (override and fallback
library reads, installed-library lookup, ad-hoc synthesis, link detection)
preserves every existing entry — resolved definitions are kept by name,
and link detection only appends to the connection list. -/
theorem monotonic_growth :
    (∀ (ml : MonLib) (lib : Lib) (n : String) (d : ChemComp),
      ml.lookup n = some d → (ml.readMonomerCif lib).lookup n = some d) ∧
    (∀ (ml : MonLib) (installed : Lib) (wanted : List String) (n : String) (d : ChemComp),
      ml.lookup n = some d →
        (ml.readMonomerLibNames installed wanted).lookup n = some d) ∧
    (∀ (ml : MonLib) (needed : List String) (m : Model) (n : String) (d : ChemComp),
      ml.lookup n = some d → (synthesizeMissing ml needed m).lookup n = some d) ∧
    (∀ (m : Model) (st : Structure) (raw : List Contact),
      ∃ t, (assignConnections m st raw).connections = st.connections ++ t) :=
  ⟨fun ml lib n d h => lookup_readMonomerCif_of_some ml lib n d h,
    fun ml installed wanted n d h =>
      lookup_readMonomerLibNames_of_some ml installed wanted n d h,
    fun ml needed m n d h => lookup_synthesizeMissing_of_some ml needed m n d h,
    fun m st raw => fold_connections_append m (deliveredContacts raw) st 0⟩

def mlW9 : MonLib := ⟨[("AAA", ⟨"AAA", false, ["C"]⟩)]⟩

theorem monotonic_growth_witness :
    MonLib.lookup mlW9 "AAA" = some ⟨"AAA", false, ["C"]⟩ ∧
    (mlW9.readMonomerCif [("BBB", ⟨"BBB", false, []⟩)]).lookup "AAA"
      = some ⟨"AAA", false, ["C"]⟩ ∧
    (mlW9.readMonomerLibNames [("BBB", ⟨"BBB", false, []⟩)] ["BBB"]).lookup "AAA"
      = some ⟨"AAA", false, ["C"]⟩ ∧
    (synthesizeMissing mlW9 ["BBB"] modelW8).lookup "AAA"
      = some ⟨"AAA", false, ["C"]⟩ ∧
    (∃ t, (assignConnections modelW8 ⟨[]⟩ []).connections = ([] : List Connection) ++ t) :=
  ⟨by decide,
    monotonic_growth.1 mlW9 [("BBB", ⟨"BBB", false, []⟩)] "AAA" ⟨"AAA", false, ["C"]⟩
      (by decide),
    monotonic_growth.2.1 mlW9 [("BBB", ⟨"BBB", false, []⟩)] ["BBB"] "AAA"
      ⟨"AAA", false, ["C"]⟩ (by decide),
    monotonic_growth.2.2.1 mlW9 ["BBB"] modelW8 "AAA" ⟨"AAA", false, ["C"]⟩ (by decide),
    monotonic_growth.2.2.2 modelW8 ⟨[]⟩ []⟩

/-- C10: ad-hoc synthesis inserts a definition only for a name still absent
from the resolved monomer set — an explicit absence check precedes each
insertion — so it never replaces or modifies a definition already obtained
from any library: every definition present before synthesis is unchanged
after it. -/
theorem synthesis_never_replaces (ml : MonLib) (needed : List String) (m : Model)
    (n : String) (d : ChemComp) (h : ml.lookup n = some d) :
    (synthesizeMissing ml needed m).lookup n = some d :=
  lookup_synthesizeMissing_of_some ml needed m n d h

def mlW10 : MonLib := ⟨[("ALA", ⟨"ALA", false, ["N", "CA"]⟩)]⟩

theorem synthesis_never_replaces_witness :
    MonLib.lookup mlW10 "ALA" = some ⟨"ALA", false, ["N", "CA"]⟩ ∧
    (synthesizeMissing mlW10 ["ALA"] modelW8).lookup "ALA"
      = some ⟨"ALA", false, ["N", "CA"]⟩ :=
  ⟨by decide,
    synthesis_never_replaces mlW10 ["ALA"] modelW8 "ALA" ⟨"ALA", false, ["N", "CA"]⟩
      (by decide)⟩

end GemmiPrep
